import Mathlib

/-!
Shallow embedding of `mockredis` (`src/mockredis/redis.py`), a Python 2
in-process imitation of a Redis client.

The backing store is `self.redis = defaultdict(dict)`: a mapping from key to
value that, on a *plain subscript read* of a missing key, silently creates an
empty Python `dict` at that key (auto-vivification).  We model the store as a
function `String → Option PyValue` and the auto-vivifying read as `autoGet`,
which returns the value together with the (possibly mutated) store.

Python runtime values that can live in the store here are exactly `dict`
(hashes and sorted sets alike), `str`, `set` and `list`; we model them as a
tagged union `PyValue`.  Dict entries carry either a text value (hash use) or
a numeric score (sorted-set use), modelled by `Scalar`; numeric scores are
modelled as integers.  Python dicts and sets are modelled as association
lists / lists with the iteration order fixed to list order (Python 2 dict and
set iteration order is arbitrary but fixed; no claim here depends on it
except through sorting, which determinises it).

Commands that can raise a Python exception return `Except Err _` together
with the store as it stands when the command returns or raises; the `Err`
constructors name the Python exception class raised on each path.
-/

/-- A scalar sitting inside a Python dict: hash field values are strings,
sorted-set scores are numbers (modelled as `Int`). -/
inductive Scalar where
  | s (v : String)
  | n (v : Int)
deriving DecidableEq, Repr

/-- The concrete Python runtime kinds a stored value can have. A sorted set
is stored as a plain `dict` from member to score, the same concrete kind as a
hash. -/
inductive PyValue where
  | dict (d : List (String × Scalar))
  | str (v : String)
  | set (m : List String)
  | list (l : List String)
deriving DecidableEq, Repr

/-- Python exception classes raised by the modelled code paths. -/
inductive Err where
  | keyError
  | valueError
  | typeError
  | attributeError
  | indexError
  | notImplementedError
  | redisError
deriving DecidableEq, Repr

/-- The class-level store `MockRedis.redis`: a mapping from key to value.
`none` means the key has never been written (no entry). -/
def Store : Type := String → Option PyValue

/-- The fresh `defaultdict(dict)` installed by `reset`. -/
def emptyStore : Store := fun _ => none

/-- Point update of the store mapping (Python `self.redis[key] = v`). -/
def Store.update (s : Store) (k : String) (v : PyValue) : Store :=
  fun k' => if k' = k then some v else s k'

/-- `self.redis[key]` on a `defaultdict(dict)`: returns the stored value if
present; otherwise creates (and returns) an empty dict at `key`, mutating the
store. -/
def autoGet (s : Store) (k : String) : PyValue × Store :=
  match s k with
  | some v => (v, s)
  | none => (.dict [], s.update k (.dict []))

/-- Python `len()` of a stored value: entry count of a dict, element count of
a set or list, character count of a str. -/
def pyLen : PyValue → Nat
  | .dict d => d.length
  | .set m => m.length
  | .list l => l.length
  | .str v => v.length

/-- Python iteration over a stored value, as the list of items produced:
a dict yields its keys, a set or list its elements, a str its characters
(as one-character strings). -/
def pyMembers : PyValue → List String
  | .dict d => d.map Prod.fst
  | .set m => m
  | .list l => l
  | .str v => v.data.map (fun c => String.mk [c])

/-- Normalise one Python slice index against a sequence of length `n`:
negative indices count from the end, and both ends clamp into `[0, n]`. -/
def normIdx (i : Int) (n : Nat) : Nat :=
  if i < 0 then (i + n).toNat else min i.toNat n

/-- Python slice `l[a:b]` for integer indices. -/
def pySlice {α : Type} (l : List α) (a b : Int) : List α :=
  (l.take (normIdx b l.length)).drop (normIdx a l.length)

/-- Upsert into a Python dict modelled as an association list: replace the
value at an existing key in place, else append the new entry. -/
def dictSet {β : Type} : List (String × β) → String → β → List (String × β)
  | [], k, v => [(k, v)]
  | (k', v') :: rest, k, v =>
      if k' = k then (k', v) :: rest else (k', v') :: dictSet rest k v

namespace MockRedis

/-- `MockRedis.reset`: rebinds the class-level store to a fresh empty
`defaultdict(dict)`, whatever it held before. -/
def reset (_ : Store) : Store := emptyStore

/-- `MockRedis.__init__`: the constructor just calls `reset`, so constructing
any instance empties the shared class-level store. -/
def init (s : Store) : Store := reset s

/-- `MockRedis.type`: inspects the concrete Python kind of `self.redis[key]`
(an auto-vivifying read).  A dict reports `'hash'` — hashes and sorted sets
are indistinguishable here; the trailing `return None` of the source is
unreachable for values of the four kinds the store can hold. -/
def type (s : Store) (key : String) : Option String × Store :=
  let (v, s') := autoGet s key
  match v with
  | .dict _ => (some "hash", s')
  | .str _ => (some "string", s')
  | .set _ => (some "set", s')
  | .list _ => (some "list", s')

/-- `MockRedis.get`: explicitly overrides the default dict with a `key not in
self.redis` membership test, returning `''` for an absent key and the stored
value otherwise; never mutates and never raises. -/
def get (s : Store) (key : String) : PyValue :=
  match s key with
  | none => .str ""
  | some v => v

/-- `MockRedis.exists`: `key in self.redis` (no auto-vivification). -/
def exists_ (s : Store) (key : String) : Bool :=
  (s key).isSome

/-- `MockRedis.delete`: removes the entry if present, no-op otherwise. -/
def delete (s : Store) (key : String) : Store :=
  fun k' => if k' = key then none else s k'

/-- `MockRedis.lrange`: on a present list, the Python slice
`self.redis[key][start:stop + 1]`; slicing a present dict or set raises
`TypeError` (a present str would slice to a str — no claim touches that
cross-type path, folded into the same error arm); on an absent key the
source assigns `list([])` to the key and falls through, returning `None`. -/
def lrange (s : Store) (key : String) (start stop : Int) :
    Except Err (Option (List String)) × Store :=
  match s key with
  | some (.list l) => (.ok (some (pySlice l start (stop + 1))), s)
  | some _ => (.error .typeError, s)
  | none => (.ok none, s.update key (.list []))

/-- `MockRedis.rpush`: creates `list([])` at an absent key, then appends each
argument in order.  `.append` on a present dict, set or str raises
`AttributeError` at the first argument (so with no arguments nothing is
touched and no error is raised). -/
def rpush (s : Store) (key : String) (args : List String) :
    Except Err Unit × Store :=
  match s key with
  | none => (.ok (), s.update key (.list args))
  | some (.list l) => (.ok (), s.update key (.list (l ++ args)))
  | some _ =>
      match args with
      | [] => (.ok (), s)
      | _ :: _ => (.error .attributeError, s)

/-- `MockRedis.rpop`: guarded by `has_key`, so an absent key returns `None`
without mutating.  On a present list, `pop()` removes and returns the tail,
raising `IndexError` on an empty list; if the remaining list `== []` the key
is deleted.  On a present set, Python `set.pop()` removes and returns the
first element in iteration order (and `set == []` is `False`, so no delete);
`dict.pop()` without an argument raises `TypeError`; `str` has no `pop`
(`AttributeError`). -/
def rpop (s : Store) (key : String) : Except Err (Option String) × Store :=
  match s key with
  | none => (.ok none, s)
  | some (.list l) =>
      match l.getLast? with
      | none => (.error .indexError, s)
      | some x =>
          let l' := l.dropLast
          if l' = [] then (.ok (some x), delete (s.update key (.list l')) key)
          else (.ok (some x), s.update key (.list l'))
  | some (.set []) => (.error .keyError, s)
  | some (.set (m :: ms)) => (.ok (some m), s.update key (.set ms))
  | some (.dict _) => (.error .typeError, s)
  | some (.str _) => (.error .attributeError, s)

/-- `MockRedis.srem`: `self.redis[key].discard(member)` — an auto-vivifying
read, so an absent key first gains an empty dict, and `dict` (like `list` and
`str`) has no `discard` method: `AttributeError`.  On a present set,
`discard` removes the member if present and is silent otherwise. -/
def srem (s : Store) (key member : String) : Except Err Unit × Store :=
  match autoGet s key with
  | (.set m, s') => (.ok (), s'.update key (.set (m.erase member)))
  | (_, s') => (.error .attributeError, s')

/-- `MockRedis.srandmember`: `randint(0, len - 1)` raises `ValueError` on an
empty collection (this `len` is an auto-vivifying read, so an absent key
first gains an empty dict and then fails that way).  Otherwise the loop
compares its counter `i` — which is initialised to 0 and never incremented —
against the drawn index, so it returns the first iterated item when the draw
is 0 and falls off the loop (returning `None`) otherwise.  The random draw is
passed in as `randIndex`. -/
def srandmember (s : Store) (key : String) (randIndex : Nat) :
    Except Err (Option String) × Store :=
  let (v, s') := autoGet s key
  let members := pyMembers v
  if members.length = 0 then (.error .valueError, s')
  else if randIndex = 0 then (.ok members.head?, s')
  else (.ok none, s')

/-- The assignment loop of `zadd`: for each pair, `self.redis[name][key] =
score` — an auto-vivifying read of `name` followed by an item assignment.
Item assignment with a string index on a present list or str, or on a set,
raises `TypeError` (str is immutable, list needs an int index, set is not
subscriptable). -/
def zaddLoop (s : Store) (name : String) :
    List (String × Int) → Except Err Unit × Store
  | [] => (.ok (), s)
  | (m, sc) :: rest =>
      match autoGet s name with
      | (.dict d, s') => zaddLoop (s'.update name (.dict (dictSet d m (.n sc)))) name rest
      | (_, s') => (.error .typeError, s')

/-- The `all_pairs` dict of `zadd`: the legacy entry (when given), then every
keyword pair, each applied as a dict update. -/
def allPairs (legacy : Option (String × Int)) (pairs : List (String × Int)) :
    List (String × Int) :=
  (legacy.toList ++ pairs).foldl (fun d p => dictSet d p.1 p.2) []

/-- `MockRedis.zadd`: builds `all_pairs` from the deprecated `value`/`score`
arguments (raising `RedisError` when exactly one of them is given) and the
keyword pairs, then assigns each member its score in `self.redis[name]`. -/
def zadd (s : Store) (name : String) (value : Option String)
    (score : Option Int) (pairs : List (String × Int)) :
    Except Err Unit × Store :=
  if value.isSome || score.isSome then
    match value, score with
    | some v, some sc => zaddLoop s name (allPairs (some (v, sc)) pairs)
    | _, _ => (.error .redisError, s)
  else zaddLoop s name (allPairs none pairs)

/-- `MockRedis.zscore`: `return self.redis[name][value]` — an auto-vivifying
read of `name` (an absent name gains an empty dict), then a dict lookup that
raises `KeyError` for an absent member; subscripting a present list, set or
str with a string raises `TypeError`. -/
def zscore (s : Store) (name value : String) : Except Err Scalar × Store :=
  let (v, s') := autoGet s name
  match v with
  | .dict d =>
      match d.lookup value with
      | some sc => (.ok sc, s')
      | none => (.error .keyError, s')
  | _ => (.error .typeError, s')

/-- Python 2 `<=` on the scalars that can appear as dict values: numbers
compare among themselves, strings compare lexicographically, and any number
compares below any string (Python 2 orders mixed types by type name,
`'int' < 'str'`). -/
def scalarLe : Scalar → Scalar → Prop
  | .n a, .n b => a ≤ b
  | .n _, .s _ => True
  | .s _, .n _ => False
  | .s a, .s b => a ≤ b

instance : DecidableRel scalarLe := fun a b =>
  match a, b with
  | .n x, .n y => inferInstanceAs (Decidable (x ≤ y))
  | .n _, .s _ => inferInstanceAs (Decidable True)
  | .s _, .n _ => inferInstanceAs (Decidable False)
  | .s x, .s y => inferInstanceAs (Decidable (x ≤ y))

/-- The ordering used by `zrevrange`'s `sorted(..., key=itemgetter(1),
reverse=True)`: entry `p` may precede entry `q` when `q`'s score is at most
`p`'s.  Python's `sorted` is stable; a stable sort by a total preorder is
uniquely determined, so `List.insertionSort` by this relation computes the
same list. -/
def zrevRel (p q : String × Scalar) : Prop := scalarLe q.2 p.2

instance : DecidableRel zrevRel := fun p q =>
  inferInstanceAs (Decidable (scalarLe q.2 p.2))

/-- `MockRedis.zrevrange`: raises `NotImplementedError` when `withscores` is
requested (before touching the store); otherwise sorts the items of
`self.redis[name]` (an auto-vivifying read) by descending score, takes the
Python slice `[start : start + num]`, and returns the member of each selected
item.  `.iteritems()` on a present list, set or str raises
`AttributeError`. -/
def zrevrange (s : Store) (name : String) (start num : Int)
    (withscores : Bool) : Except Err (List String) × Store :=
  if withscores then (.error .notImplementedError, s)
  else
    let (v, s') := autoGet s name
    match v with
    | .dict d =>
        let itemsDescending := d.insertionSort zrevRel
        (.ok ((pySlice itemsDescending start (start + num)).map Prod.fst), s')
    | _ => (.error .attributeError, s')

/-- `MockRedis.zcard`: `len(self.redis[name])` — an auto-vivifying read. -/
def zcard (s : Store) (name : String) : Nat × Store :=
  let (v, s') := autoGet s name
  (pyLen v, s')

end MockRedis

/-- `mock_redis_client`: constructs and returns a fresh `MockRedis`; since
every instance shares the class-level store and the constructor resets it,
this empties the store. -/
def mock_redis_client (s : Store) : Store := MockRedis.init s

/-! ## Helper lemmas on Python slices -/

theorem normIdx_natCast (a n : Nat) : normIdx (a : Int) n = min a n := by
  unfold normIdx
  rw [if_neg (by omega), Int.toNat_natCast]

theorem take_min_length {α : Type} (l : List α) (b : Nat) :
    l.take (min b l.length) = l.take b := by
  rcases Nat.le_total b l.length with h | h
  · rw [Nat.min_eq_left h]
  · rw [Nat.min_eq_right h, List.take_length, List.take_of_length_le h]

theorem pySlice_natCast {α : Type} (l : List α) (a b : Nat) :
    pySlice l (a : Int) (b : Int) = (l.drop a).take (b - a) := by
  unfold pySlice
  rw [normIdx_natCast, normIdx_natCast, take_min_length]
  rcases Nat.le_total a l.length with ha | ha
  · rw [Nat.min_eq_left ha]
    rcases Nat.le_total a b with hab | hab
    · have hb : b = a + (b - a) := by omega
      rw [hb, ← List.take_drop, Nat.add_sub_cancel_left]
    · have h1 : (l.take b).drop a = [] :=
        List.drop_of_length_le (by simp; omega)
      have h2 : b - a = 0 := by omega
      rw [h1, h2, List.take_zero]
  · rw [Nat.min_eq_right ha,
      List.drop_of_length_le (l := l.take b) (by simp),
      List.drop_of_length_le ha, List.take_nil]

/-! ## Claim theorems -/

/-- C5: `get` on a never-written key returns the empty string (no error, no
null), and `exists` on that same key returns false. -/
theorem get_absent_empty_default (s : Store) (k : String) (h : s k = none) :
    MockRedis.get s k = .str "" ∧ MockRedis.exists_ s k = false := by
  refine ⟨?_, ?_⟩ <;> simp [MockRedis.get, MockRedis.exists_, h]

theorem get_absent_empty_default_witness :
    emptyStore "missing" = none ∧
      (MockRedis.get emptyStore "missing" = .str "" ∧
        MockRedis.exists_ emptyStore "missing" = false) :=
  ⟨rfl, get_absent_empty_default emptyStore "missing" rfl⟩

/-- C10: the store is shared class-level state and the constructor (hence the
factory) rebinds it to a fresh empty mapping, so after constructing a new
instance every previously written key is absent through every instance. -/
theorem mock_redis_client_clears_store (s : Store) (k : String) :
    MockRedis.exists_ (mock_redis_client s) k = false := rfl

/-- C9 (failing-input evaluation): `srem` on a key absent from the store does
not run silently — it raises `AttributeError` (the auto-vivified default is a
dict, which has no `discard`), and it even creates the key as a side
effect. -/
theorem srem_absent_key_raises :
    (MockRedis.srem emptyStore "colors" "red").1 = .error .attributeError ∧
      MockRedis.exists_ (MockRedis.srem emptyStore "colors" "red").2 "colors"
        = true :=
  ⟨rfl, rfl⟩

/-- C3 (failing-input evaluation): on the two-member set `{"a","b"}`, the
legal random draw `1` makes `srandmember` return no member at all (the loop
counter is never incremented), so the result is not a uniformly chosen
member; on an empty set it does fail (ValueError from the empty randint
range). -/
theorem srandmember_nonzero_draw_returns_none :
    (MockRedis.srandmember (emptyStore.update "s" (.set ["a", "b"])) "s" 1).1
        = .ok none ∧
      (MockRedis.srandmember (emptyStore.update "s" (.set ["a", "b"])) "s" 0).1
        = .ok (some "a") ∧
      (MockRedis.srandmember (emptyStore.update "s" (.set [])) "s" 0).1
        = .error .valueError :=
  ⟨rfl, rfl, rfl⟩

/-- C1 (counterexample): a failed command is not always a no-op on the Store:
`zscore` on an absent name raises `KeyError` but changes the key set — the
name becomes present (auto-vivified empty dict), as observed by `exists`. -/
theorem zscore_failure_changes_key_set :
    (MockRedis.zscore emptyStore "scores" "alice").1 = .error .keyError ∧
      MockRedis.exists_ emptyStore "scores" = false ∧
      MockRedis.exists_ (MockRedis.zscore emptyStore "scores" "alice").2
        "scores" = true :=
  ⟨rfl, rfl, rfl⟩

/-- C1 (amended): a `zscore` failure on a member absent from an existing
sorted set leaves the Store exactly unchanged; a `zscore` failure on an
absent name changes the Store exactly by binding the name to an empty dict
(so the key set gains that one key). -/
theorem zscore_failure_effects :
    (∀ (s : Store) (name member : String) (d : List (String × Scalar)),
        s name = some (.dict d) → d.lookup member = none →
        MockRedis.zscore s name member = (.error .keyError, s)) ∧
    ∀ (s : Store) (name member : String),
      s name = none →
      MockRedis.zscore s name member =
        (.error .keyError, s.update name (.dict [])) := by
  constructor
  · intro s name member d h hm
    simp [MockRedis.zscore, autoGet, h, hm]
  · intro s name member h
    simp [MockRedis.zscore, autoGet, h]

theorem zscore_failure_effects_witness :
    ((emptyStore.update "z" (.dict [])) "z" = some (.dict []) ∧
        (List.lookup "m" ([] : List (String × Scalar)) = none ∧
          MockRedis.zscore (emptyStore.update "z" (.dict [])) "z" "m" =
            (.error .keyError, emptyStore.update "z" (.dict [])))) ∧
      (emptyStore "w" = none ∧
        MockRedis.zscore emptyStore "w" "m" =
          (.error .keyError, emptyStore.update "w" (.dict []))) :=
  ⟨⟨rfl, rfl, zscore_failure_effects.1 (emptyStore.update "z" (.dict []))
      "z" "m" [] rfl rfl⟩,
    rfl, zscore_failure_effects.2 emptyStore "w" "m" rfl⟩

/-- C2 (counterexample): `type` is neither none-returning nor pure on an
absent key: it reports `hash` and creates the key (auto-vivified empty
dict). -/
theorem type_absent_key_not_none :
    (MockRedis.type emptyStore "k").1 = some "hash" ∧
      MockRedis.exists_ emptyStore "k" = false ∧
      MockRedis.exists_ (MockRedis.type emptyStore "k").2 "k" = true :=
  ⟨rfl, rfl, rfl⟩

/-- C2 (amended): on a present key `type` leaves the Store unchanged and
returns one of {hash, string, set, list} from the concrete stored kind — a
sorted set, being stored as a dict, reports `hash`; on an absent key `type`
returns `hash` and mutates the Store by creating an empty dict there. -/
theorem type_behavior :
    (∀ (s : Store) (k : String) (v : PyValue),
        s k = some v → (MockRedis.type s k).2 = s) ∧
    (∀ (s : Store) (k : String) (d : List (String × Scalar)),
        s k = some (.dict d) → (MockRedis.type s k).1 = some "hash") ∧
    (∀ (s : Store) (k : String) (v : PyValue),
        s k = some v →
        (MockRedis.type s k).1 = some "hash" ∨
          (MockRedis.type s k).1 = some "string" ∨
          (MockRedis.type s k).1 = some "set" ∨
          (MockRedis.type s k).1 = some "list") ∧
    ∀ (s : Store) (k : String),
      s k = none →
      MockRedis.type s k = (some "hash", s.update k (.dict [])) := by
  refine ⟨?_, ?_, ?_, ?_⟩
  · intro s k v h
    cases v <;> simp [MockRedis.type, autoGet, h]
  · intro s k d h
    simp [MockRedis.type, autoGet, h]
  · intro s k v h
    cases v <;> simp [MockRedis.type, autoGet, h]
  · intro s k h
    simp [MockRedis.type, autoGet, h]

theorem type_behavior_witness :
    ((emptyStore.update "h" (.dict [])) "h" = some (.dict []) ∧
        (MockRedis.type (emptyStore.update "h" (.dict []))
          "h").2 = emptyStore.update "h" (.dict [])) ∧
      (emptyStore "k" = none ∧
        MockRedis.type emptyStore "k" =
          (some "hash", emptyStore.update "k" (.dict []))) :=
  ⟨⟨rfl, type_behavior.1 (emptyStore.update "h" (.dict [])) "h"
      (.dict []) rfl⟩,
    rfl, type_behavior.2.2.2 emptyStore "k" rfl⟩

/-- C6: `zscore` returns the stored score when both the sorted set and the
member exist, and fails with `KeyError` both when the name is absent and when
the member is absent from an existing sorted set — never an empty default. -/
theorem zscore_score_or_keyerror :
    (∀ (s : Store) (name member : String) (d : List (String × Scalar))
        (sc : Scalar),
        s name = some (.dict d) → d.lookup member = some sc →
        (MockRedis.zscore s name member).1 = .ok sc) ∧
    (∀ (s : Store) (name member : String) (d : List (String × Scalar)),
        s name = some (.dict d) → d.lookup member = none →
        (MockRedis.zscore s name member).1 = .error .keyError) ∧
    ∀ (s : Store) (name member : String),
      s name = none →
      (MockRedis.zscore s name member).1 = .error .keyError := by
  refine ⟨?_, ?_, ?_⟩
  · intro s name member d sc h hm
    simp [MockRedis.zscore, autoGet, h, hm]
  · intro s name member d h hm
    simp [MockRedis.zscore, autoGet, h, hm]
  · intro s name member h
    simp [MockRedis.zscore, autoGet, h]

theorem zscore_score_or_keyerror_witness :
    ((emptyStore.update "z" (.dict [("alice", .n 5)])) "z"
        = some (.dict [("alice", .n 5)]) ∧
      (MockRedis.zscore (emptyStore.update "z" (.dict [("alice", .n 5)]))
          "z" "alice").1 = .ok (.n 5)) ∧
      (MockRedis.zscore (emptyStore.update "z" (.dict [("alice", .n 5)]))
          "z" "bob").1 = .error .keyError ∧
      (MockRedis.zscore emptyStore "w" "alice").1 = .error .keyError :=
  ⟨⟨rfl, zscore_score_or_keyerror.1 (emptyStore.update "z"
      (.dict [("alice", .n 5)])) "z" "alice" [("alice", .n 5)] (.n 5) rfl rfl⟩,
    zscore_score_or_keyerror.2.1 (emptyStore.update "z"
      (.dict [("alice", .n 5)])) "z" "bob" [("alice", .n 5)] rfl rfl,
    zscore_score_or_keyerror.2.2 emptyStore "w" "alice" rfl⟩

/-- C4: the concrete scenario — from an absent key `"q"`,
`rpush("q","1","2")` then `rpop("q")` returns `"2"`, a second `rpop("q")`
returns `"1"` and removes the key (`exists("q")` is false) — and in general
`rpop` removes and returns the tail element of a stored list, deleting the
key exactly when the list becomes empty. -/
theorem rpop_scenario_and_tail :
    (emptyStore "q" = none ∧
      (MockRedis.rpop (MockRedis.rpush emptyStore "q" ["1", "2"]).2 "q").1
        = .ok (some "2") ∧
      (MockRedis.rpop
          (MockRedis.rpop (MockRedis.rpush emptyStore "q" ["1", "2"]).2
            "q").2 "q").1 = .ok (some "1") ∧
      MockRedis.exists_
        (MockRedis.rpop
          (MockRedis.rpop (MockRedis.rpush emptyStore "q" ["1", "2"]).2
            "q").2 "q").2 "q" = false) ∧
    ∀ (s : Store) (k : String) (l : List String) (x : String),
      s k = some (.list (l ++ [x])) →
      (MockRedis.rpop s k).1 = .ok (some x) ∧
        (l = [] → (MockRedis.rpop s k).2 k = none) ∧
        (l ≠ [] → (MockRedis.rpop s k).2 k = some (.list l)) := by
  refine ⟨⟨rfl, rfl, rfl, rfl⟩, ?_⟩
  intro s k l x h
  simp only [MockRedis.rpop, h, List.getLast?_concat, List.dropLast_concat]
  refine ⟨?_, ?_, ?_⟩
  · split <;> rfl
  · intro hl
    subst hl
    simp [MockRedis.delete]
  · intro hl
    rw [if_neg hl]
    simp [Store.update]

theorem rpop_scenario_and_tail_witness :
    ((emptyStore.update "k" (.list ["a", "b"])) "k"
        = some (.list (["a"] ++ ["b"])) ∧
      (MockRedis.rpop (emptyStore.update "k" (.list ["a", "b"])) "k").1
        = .ok (some "b") ∧
      (MockRedis.rpop (emptyStore.update "k" (.list ["a", "b"])) "k").2 "k"
        = some (.list ["a"])) :=
  ⟨rfl,
    (rpop_scenario_and_tail.2 (emptyStore.update "k" (.list ["a", "b"]))
      "k" ["a"] "b" rfl).1,
    (rpop_scenario_and_tail.2 (emptyStore.update "k" (.list ["a", "b"]))
      "k" ["a"] "b" rfl).2.2 (by simp)⟩

/-- C7: `rpush` appends its arguments in order at the tail, creating the list
when the key is absent; `lrange` on a present list with non-negative bounds
returns the inclusive slice from `start` through `stop`; and concretely
`rpush(k,a,b,c)` then `lrange(k,0,2)` returns `[a,b,c]`. -/
theorem rpush_lrange_inclusive :
    (∀ (s : Store) (k : String) (args : List String),
        s k = none →
        MockRedis.rpush s k args = (.ok (), s.update k (.list args))) ∧
    (∀ (s : Store) (k : String) (l args : List String),
        s k = some (.list l) →
        MockRedis.rpush s k args
          = (.ok (), s.update k (.list (l ++ args)))) ∧
    (∀ (s : Store) (k : String) (l : List String) (start stop : Nat),
        s k = some (.list l) →
        (MockRedis.lrange s k (start : Int) (stop : Int)).1
          = .ok (some ((l.drop start).take (stop + 1 - start)))) ∧
    (MockRedis.lrange (MockRedis.rpush emptyStore "k" ["a", "b", "c"]).2
        "k" 0 2).1 = .ok (some ["a", "b", "c"]) := by
  refine ⟨?_, ?_, ?_, rfl⟩
  · intro s k args h
    simp [MockRedis.rpush, h]
  · intro s k l args h
    simp [MockRedis.rpush, h]
  · intro s k l start stop h
    have hcast : (stop : Int) + 1 = ((stop + 1 : Nat) : Int) := by push_cast; ring
    simp only [MockRedis.lrange, h, hcast, pySlice_natCast]

theorem rpush_lrange_inclusive_witness :
    (emptyStore "k" = none ∧
        MockRedis.rpush emptyStore "k" ["a"]
          = (.ok (), emptyStore.update "k" (.list ["a"]))) ∧
      ((emptyStore.update "k" (.list ["a"])) "k" = some (.list ["a"]) ∧
        (MockRedis.lrange (emptyStore.update "k" (.list ["a"])) "k"
            ((0 : Nat) : Int) ((0 : Nat) : Int)).1
          = .ok (some ((["a"].drop 0).take (0 + 1 - 0)))) :=
  ⟨⟨rfl, rpush_lrange_inclusive.1 emptyStore "k" ["a"] rfl⟩,
    rfl, rpush_lrange_inclusive.2.2.1 (emptyStore.update "k" (.list ["a"]))
      "k" ["a"] 0 0 rfl⟩

/-! ## Helper lemmas for the sorted-set claims -/

theorem dictSet_not_mem {β : Type} (d : List (String × β)) (k : String) (v : β)
    (h : k ∉ d.map Prod.fst) : dictSet d k v = d ++ [(k, v)] := by
  induction d with
  | nil => rfl
  | cons p rest ih =>
      obtain ⟨k', v'⟩ := p
      simp only [List.map_cons, List.mem_cons, not_or] at h
      have hne : ¬ k' = k := fun e => h.1 e.symm
      simp only [dictSet, if_neg hne, List.cons_append, ih h.2]

theorem allPairs_of_nodup (pairs : List (String × Int))
    (hmem : (pairs.map Prod.fst).Nodup) : MockRedis.allPairs none pairs = pairs := by
  suffices h : ∀ (qs : List (String × Int)) (acc : List (String × Int)),
      (qs.map Prod.fst).Nodup →
      (∀ k ∈ qs.map Prod.fst, k ∉ acc.map Prod.fst) →
      qs.foldl (fun d p => dictSet d p.1 p.2) acc = acc ++ qs by
    unfold MockRedis.allPairs
    simpa [Option.toList] using h pairs [] hmem (by simp)
  intro qs
  induction qs with
  | nil => intro acc _ _; simp
  | cons q rest ih =>
      obtain ⟨m, sc⟩ := q
      intro acc hnd hdisj
      simp only [List.map_cons, List.nodup_cons] at hnd
      simp only [List.foldl_cons]
      rw [dictSet_not_mem acc m sc (hdisj m (by simp))]
      have hdisj' : ∀ k ∈ rest.map Prod.fst,
          k ∉ (acc ++ [(m, sc)]).map Prod.fst := by
        intro k hk
        simp only [List.map_append, List.mem_append, List.map_cons,
          List.map_nil, List.mem_cons, List.not_mem_nil, or_false, not_or]
        exact ⟨hdisj k (by simp [hk]), fun e => hnd.1 (e ▸ hk)⟩
      rw [ih (acc ++ [(m, sc)]) hnd.2 hdisj']
      simp

theorem zaddLoop_fresh (name : String) (qs : List (String × Int)) :
    ∀ (s : Store) (d : List (String × Scalar)),
      s name = some (.dict d) →
      (qs.map Prod.fst).Nodup →
      (∀ k ∈ qs.map Prod.fst, k ∉ d.map Prod.fst) →
      (MockRedis.zaddLoop s name qs).1 = .ok () ∧
        (MockRedis.zaddLoop s name qs).2 name
          = some (.dict (d ++ qs.map (fun p => (p.1, Scalar.n p.2)))) := by
  induction qs with
  | nil =>
      intro s d h _ _
      exact ⟨rfl, by simp [MockRedis.zaddLoop, h]⟩
  | cons q rest ih =>
      obtain ⟨m, sc⟩ := q
      intro s d h hnd hdisj
      simp only [List.map_cons, List.nodup_cons] at hnd
      simp only [MockRedis.zaddLoop, autoGet, h]
      rw [dictSet_not_mem d m (.n sc) (hdisj m (by simp))]
      have hdisj' : ∀ k ∈ rest.map Prod.fst,
          k ∉ (d ++ [(m, Scalar.n sc)]).map Prod.fst := by
        intro k hk
        simp only [List.map_append, List.mem_append, List.map_cons,
          List.map_nil, List.mem_cons, List.not_mem_nil, or_false, not_or]
        exact ⟨hdisj k (by simp [hk]), fun e => hnd.1 (e ▸ hk)⟩
      have hstep := ih (s.update name (.dict (d ++ [(m, Scalar.n sc)])))
        (d ++ [(m, Scalar.n sc)]) (by simp [Store.update]) hnd.2 hdisj'
      refine ⟨hstep.1, ?_⟩
      rw [hstep.2]
      simp

theorem zadd_fresh_store (s : Store) (name : String)
    (pairs : List (String × Int)) (hs : s name = none)
    (hmem : (pairs.map Prod.fst).Nodup) (hne : pairs ≠ []) :
    (MockRedis.zadd s name none none pairs).2 name
      = some (.dict (pairs.map (fun p => (p.1, Scalar.n p.2)))) := by
  have hall : MockRedis.zadd s name none none pairs
      = MockRedis.zaddLoop s name pairs := by
    simp [MockRedis.zadd, allPairs_of_nodup pairs hmem]
  rw [hall]
  obtain _ | ⟨⟨m, sc⟩, rest⟩ := pairs
  · exact absurd rfl hne
  · simp only [List.map_cons, List.nodup_cons] at hmem
    simp only [MockRedis.zaddLoop, autoGet, hs]
    have h0 : ((s.update name (.dict [])).update name
        (.dict (dictSet [] m (.n sc)))) name = some (.dict [(m, Scalar.n sc)]) := by
      simp [Store.update, dictSet]
    have hdisj0 : ∀ k ∈ rest.map Prod.fst,
        k ∉ ([(m, Scalar.n sc)] : List (String × Scalar)).map Prod.fst := by
      intro k hk
      simp only [List.map_cons, List.map_nil, List.mem_cons,
        List.not_mem_nil, or_false]
      intro e
      exact hmem.1 (e ▸ hk)
    have := (zaddLoop_fresh name rest _ [(m, Scalar.n sc)] h0 hmem.2 hdisj0).2
    rw [this]
    simp

theorem scalarLe_total (a b : Scalar) : MockRedis.scalarLe a b ∨ MockRedis.scalarLe b a := by
  cases a <;> cases b <;> simp [MockRedis.scalarLe] <;> apply le_total

theorem scalarLe_trans {a b c : Scalar} (h1 : MockRedis.scalarLe a b)
    (h2 : MockRedis.scalarLe b c) : MockRedis.scalarLe a c := by
  cases a <;> cases b <;> cases c <;> simp [MockRedis.scalarLe] at * <;>
    exact le_trans h1 h2

instance : IsTotal (String × Scalar) MockRedis.zrevRel :=
  ⟨fun p q => Or.symm (scalarLe_total p.2 q.2)⟩

instance : IsTrans (String × Scalar) MockRedis.zrevRel :=
  ⟨fun _ _ _ hpq hqr => scalarLe_trans hqr hpq⟩

/-- Numeric value of a scalar; scores written by `zadd` are always numeric. -/
def scalarToInt : Scalar → Int
  | .n v => v
  | .s _ => 0

theorem insertionSort_strict_desc (pairs : List (String × Int))
    (hsc : (pairs.map Prod.snd).Nodup) :
    ∃ ps : List (String × Int),
      ps.Perm pairs ∧
      (ps.map Prod.snd).Chain' (fun a b => b < a) ∧
      ((pairs.map (fun p => (p.1, Scalar.n p.2))).insertionSort
          MockRedis.zrevRel).map Prod.fst = ps.map Prod.fst := by
  set dlist := pairs.map (fun p => (p.1, Scalar.n p.2)) with hdl
  set sorted := dlist.insertionSort MockRedis.zrevRel with hsd
  set g : String × Scalar → String × Int :=
    fun p => (p.1, scalarToInt p.2) with hg
  have hp0 : sorted.Perm dlist := List.perm_insertionSort _ _
  have hdg : dlist.map g = pairs := by
    rw [hdl]
    rw [List.map_map]
    have hcomp : (g ∘ fun p : String × Int => (p.1, Scalar.n p.2)) = id := by
      funext p
      simp [hg, Function.comp, scalarToInt]
    rw [hcomp, List.map_id]
  have hpermg : (sorted.map g).Perm pairs := hdg ▸ hp0.map g
  have hxn : ∀ x ∈ sorted, ∃ v : Int, x.2 = Scalar.n v := by
    intro x hx
    have hx' : x ∈ dlist := hp0.mem_iff.mp hx
    rw [hdl] at hx'
    obtain ⟨p, _, rfl⟩ := List.mem_map.mp hx'
    exact ⟨p.2, rfl⟩
  have hP1 : List.Pairwise MockRedis.zrevRel sorted :=
    List.sorted_insertionSort _ _
  have hndps : ((sorted.map g).map Prod.snd).Nodup :=
    ((hpermg.map Prod.snd).nodup_iff).mpr hsc
  have hndps2 : List.Pairwise Ne (sorted.map fun x => (g x).2) := by
    have hmm : (sorted.map g).map Prod.snd = sorted.map (fun x => (g x).2) := by
      simp [List.map_map, Function.comp]
    rw [hmm] at hndps
    exact hndps
  have hP2 : List.Pairwise (fun a b => (g a).2 ≠ (g b).2) sorted :=
    List.Pairwise.of_map _ (fun _ _ h => h) hndps2
  have hstrict : List.Pairwise (fun a b => (g b).2 < (g a).2) sorted := by
    refine (hP1.and hP2).imp_of_mem ?_
    intro a b ha hb hab
    obtain ⟨va, hva⟩ := hxn a ha
    obtain ⟨vb, hvb⟩ := hxn b hb
    obtain ⟨h1, h2⟩ := hab
    have h1' : MockRedis.scalarLe b.2 a.2 := h1
    rw [hva, hvb] at h1'
    have hle : vb ≤ va := by simpa [MockRedis.scalarLe] using h1'
    have hga : (g a).2 = va := by simp [hg, hva, scalarToInt]
    have hgb : (g b).2 = vb := by simp [hg, hvb, scalarToInt]
    rw [hga, hgb] at h2 ⊢
    exact lt_of_le_of_ne hle (Ne.symm h2)
  refine ⟨sorted.map g, hpermg, ?_, ?_⟩
  · have hpw : List.Pairwise (fun a b => b < a)
        ((sorted.map g).map Prod.snd) :=
      List.pairwise_map.mpr (List.pairwise_map.mpr hstrict)
    exact hpw.chain'
  · simp [hg, List.map_map, Function.comp]

/-- C8: for any family of members with pairwise-distinct numeric scores added
via `zadd` under a previously absent name, `zcard` returns the number of
distinct members; `zrevrange(name, 0, N)` with `N` at least the member count
returns all members in strictly descending score order; and for any `start`
and `num` the slice taken is `[start, start + num)` over that descending
ordering (`num` acts as a count). -/
theorem zadd_zrevrange_zcard (s : Store) (name : String)
    (pairs : List (String × Int)) (N : Nat)
    (hs : s name = none)
    (hmem : (pairs.map Prod.fst).Nodup)
    (hsc : (pairs.map Prod.snd).Nodup)
    (hN : pairs.length ≤ N) :
    (MockRedis.zcard (MockRedis.zadd s name none none pairs).2 name).1
        = pairs.length ∧
      ∃ ps : List (String × Int),
        ps.Perm pairs ∧
        (ps.map Prod.snd).Chain' (fun a b => b < a) ∧
        (MockRedis.zrevrange (MockRedis.zadd s name none none pairs).2 name
            0 (N : Int) false).1 = .ok (ps.map Prod.fst) ∧
        ∀ start num : Nat,
          (MockRedis.zrevrange (MockRedis.zadd s name none none pairs).2 name
              (start : Int) (num : Int) false).1
            = .ok (((ps.map Prod.fst).drop start).take num) := by
  by_cases hnil : pairs = []
  · subst hnil
    have hzero : MockRedis.zadd s name none none [] = (.ok (), s) := by
      simp [MockRedis.zadd, MockRedis.allPairs, MockRedis.zaddLoop]
    refine ⟨?_, [], .nil, List.chain'_nil, ?_, ?_⟩
    · simp [hzero, MockRedis.zcard, autoGet, hs, pyLen]
    · simp [hzero, MockRedis.zrevrange, autoGet, hs, pySlice]
    · intro start num
      simp [hzero, MockRedis.zrevrange, autoGet, hs, pySlice]
  · have hstore := zadd_fresh_store s name pairs hs hmem hnil
    obtain ⟨ps, hps, hchain, hfst⟩ := insertionSort_strict_desc pairs hsc
    have hrev : ∀ start num : Nat,
        (MockRedis.zrevrange (MockRedis.zadd s name none none pairs).2 name
            (start : Int) (num : Int) false).1
          = .ok (((ps.map Prod.fst).drop start).take num) := by
      intro start num
      have hcast : (start : Int) + (num : Int) = ((start + num : Nat) : Int) := by
        push_cast; ring
      simp only [MockRedis.zrevrange, autoGet, hstore, Bool.false_eq_true,
        if_false, hcast, pySlice_natCast]
      have hsub : start + num - start = num := by omega
      rw [hsub]
      simp only [List.map_take, List.map_drop, hfst]
    refine ⟨?_, ps, hps, hchain, ?_, hrev⟩
    · simp [MockRedis.zcard, autoGet, hstore, pyLen]
    · have h0 := hrev 0 N
      rw [Nat.cast_zero] at h0
      rw [h0, List.drop_zero, List.take_of_length_le]
      rw [List.length_map, hps.length_eq]
      exact hN

theorem zadd_zrevrange_zcard_witness :
    emptyStore "z" = none ∧
      ([("a", (1 : Int)), ("b", 3), ("c", 2)].map Prod.fst).Nodup ∧
      ([("a", (1 : Int)), ("b", 3), ("c", 2)].map Prod.snd).Nodup ∧
      ([("a", (1 : Int)), ("b", 3), ("c", 2)].length ≤ 3) ∧
      ((MockRedis.zcard (MockRedis.zadd emptyStore "z" none none
            [("a", 1), ("b", 3), ("c", 2)]).2 "z").1
          = [("a", (1 : Int)), ("b", 3), ("c", 2)].length ∧
        ∃ ps : List (String × Int),
          ps.Perm [("a", 1), ("b", 3), ("c", 2)] ∧
          (ps.map Prod.snd).Chain' (fun a b => b < a) ∧
          (MockRedis.zrevrange (MockRedis.zadd emptyStore "z" none none
              [("a", 1), ("b", 3), ("c", 2)]).2 "z" 0 ((3 : Nat) : Int)
              false).1 = .ok (ps.map Prod.fst) ∧
          ∀ start num : Nat,
            (MockRedis.zrevrange (MockRedis.zadd emptyStore "z" none none
                [("a", 1), ("b", 3), ("c", 2)]).2 "z" (start : Int)
                (num : Int) false).1
              = .ok (((ps.map Prod.fst).drop start).take num)) :=
  ⟨rfl, by decide, by decide, by decide,
    zadd_zrevrange_zcard emptyStore "z" [("a", 1), ("b", 3), ("c", 2)] 3
      rfl (by decide) (by decide) (by decide)⟩
